import Mathlib

/-!
Verification development for the rustradio core.

The definitions below are a shallow embedding of the Rust sources:

* `Buffer` embeds `Buffer<T>` from `src/circular_buffer.rs`, working at
  sample granularity.  The field `cap` is `circ.len() / size_of::<T>()`
  (the sample capacity `L`), `data` is the physical backing store of
  `cap` samples.  The mmap double mapping of `Circ::new` (the virtual
  range `[base, base+2L)` where index `i` aliases physical `i mod L`)
  is embedded as the doubled view `data ++ data`; a write through
  virtual index `i` of the write slice lands at physical `i % cap`.
* `SinglePoleIIR` embeds `src/single_pole_iir_filter.rs`, with the Rust
  `Float` (`f32`) modelled as `ℚ` (exact arithmetic; the comparisons and
  the concrete test values used below are exact in both).
* `SpecStream` models `Stream<T>`: `src/stream.rs` is not among the
  provided sources, so it is modelled from the spec (see its docstring).
* `Json`, `Global`, `Capture`, `Annot`, `SigMF` embed `src/sigmf.rs`
  together with the serde attributes that govern serialization.
-/

namespace RustRadio

/-- Embedding of `Buffer<T>` (`src/circular_buffer.rs`): cursor positions
`rpos`/`wpos` and `used` are in samples, `cap` is the sample capacity
`circ.len() / size_of::<T>()`, and `data` is the physical store of `cap`
samples (the backing file is zero-initialised, hence `default` entries at
construction). -/
structure Buffer (T : Type) where
  cap : Nat
  rpos : Nat
  wpos : Nat
  used : Nat
  data : List T
deriving DecidableEq

variable {T U : Type}

/-- `Buffer::capacity`: `circ.len() / size_of::<T>()`, embedded as the
stored sample capacity. -/
def Buffer.capacity (b : Buffer T) : Nat := b.cap

/-- `Buffer::free`: `capacity() - used`. -/
def Buffer.free (b : Buffer T) : Nat := b.capacity - b.used

/-- `Buffer::write_range`: `(wpos, wpos + free())`. -/
def Buffer.writeRange (b : Buffer T) : Nat × Nat := (b.wpos, b.wpos + b.free)

/-- `Buffer::read_range`: `(rpos, rpos + used)`. -/
def Buffer.readRange (b : Buffer T) : Nat × Nat := (b.rpos, b.rpos + b.used)

/-- `Buffer::write_capacity`: `b - a` for `(a, b) = write_range()`. -/
def Buffer.writeCapacity (b : Buffer T) : Nat := b.writeRange.2 - b.writeRange.1

/-- `Circ::full_buffer`: the doubly-mapped virtual view of length `2L`;
virtual index `i` aliases physical index `i % cap`. -/
def Buffer.fullBuffer (b : Buffer T) : List T := b.data ++ b.data

/-- `Buffer::read_buf`: the slice `buf[start..end]` of the doubled view for
`(start, end) = read_range()`. -/
def Buffer.readBuf (b : Buffer T) : List T :=
  (b.fullBuffer.drop b.readRange.1).take (b.readRange.2 - b.readRange.1)

/-- `Buffer::write_buf`: the slice `buf[start..end]` of the doubled view for
`(start, end) = write_range()`. -/
def Buffer.writeBuf (b : Buffer T) : List T :=
  (b.fullBuffer.drop b.writeRange.1).take (b.writeRange.2 - b.writeRange.1)

/-- `Buffer::consume`: asserts `n <= used` (modelled as `none` when the
assertion fires), then `rpos = (rpos + n) % capacity()` and `used -= n`. -/
def Buffer.consume (n : Nat) (b : Buffer T) : Option (Buffer T) :=
  if n ≤ b.used then
    some { b with rpos := (b.rpos + n) % b.cap, used := b.used - n }
  else
    none

/-- `Buffer::produce`: asserts `free() >= n` and `write_capacity() >= n`
(modelled as `none` when either assertion fires), then
`wpos = (wpos + n) % capacity()` and `used += n`. -/
def Buffer.produce (n : Nat) (b : Buffer T) : Option (Buffer T) :=
  if n ≤ b.free ∧ n ≤ b.writeCapacity then
    some { b with wpos := (b.wpos + n) % b.cap, used := b.used + n }
  else
    none

/-- A single store `write_buf()[j] = x`: virtual index `wpos + j` of the
doubled mapping aliases physical index `(wpos + j) % cap`. -/
def Buffer.setWrite (b : Buffer T) (j : Nat) (x : T) : Buffer T :=
  { b with data := b.data.set ((b.wpos + j) % b.cap) x }

/-- Sequential stores `write_buf()[j], write_buf()[j+1], ...` of a list of
samples, as done by producers filling the write slice. -/
def Buffer.writeSeq (b : Buffer T) (j : Nat) : List T → Buffer T
  | [] => b
  | x :: xs => (b.setWrite j x).writeSeq (j + 1) xs

/-- A freshly constructed buffer of sample capacity `cap`: all cursors zero,
backing store zero-filled (`Default` samples) by the file-backed mapping. -/
def mkBuffer (T : Type) [Inhabited T] (cap : Nat) : Buffer T :=
  { cap := cap, rpos := 0, wpos := 0, used := 0, data := List.replicate cap default }

/-- `Buffer::<T>::new(size)` (with `Circ::new`): `assert_eq!(size, 4096)`
(modelled as `none` when the assertion fires); `Circ::new` hardcodes
`len = 4096` bytes, so the sample capacity is `4096 / size_of::<T>()`.
`elemSize` stands for `size_of::<T>()`. -/
def bufferNew (T : Type) [Inhabited T] (elemSize : Nat) (size : Nat) : Option (Buffer T) :=
  if size = 4096 then some (mkBuffer T (4096 / elemSize)) else none

/-- A precondition-respecting client operation on a buffer: a `produce(n)`
of `n` samples first written into the write slice, or a `consume(n)`. -/
inductive BufOp (T : Type) where
  | produce (xs : List T)
  | consume (n : Nat)

/-- Total number of samples consumed by a sequence of operations. -/
def BufOp.totalConsumed : List (BufOp T) → Nat
  | [] => 0
  | .produce _ :: ops => totalConsumed ops
  | .consume n :: ops => n + totalConsumed ops

/-- Concatenation of all samples produced by a sequence of operations. -/
def BufOp.appended : List (BufOp T) → List T
  | [] => []
  | .produce xs :: ops => xs ++ appended ops
  | .consume _ :: ops => appended ops

/-- One client operation: a produce writes its samples into the write slice
(in Rust, writing past the write slice would be a bounds panic, modelled as
`none`) and then commits them with `produce`; a consume calls `consume`. -/
def stepOp (op : BufOp T) (b : Buffer T) : Option (Buffer T) :=
  match op with
  | .produce xs => if xs.length ≤ b.free then (b.writeSeq 0 xs).produce xs.length else none
  | .consume n => b.consume n

/-- Run a sequence of client operations; `none` as soon as one fails. -/
def execOps : List (BufOp T) → Buffer T → Option (Buffer T)
  | [], b => some b
  | op :: ops, b => (stepOp op b).bind (execOps ops)

/-- State invariant of a live buffer: `used` within capacity, physical store
of exactly `cap` samples, read cursor in range, and the cursor relation
`wpos = (rpos + used) % cap`. -/
def Buffer.inv (b : Buffer T) : Prop :=
  b.used ≤ b.cap ∧ b.data.length = b.cap ∧ b.rpos < b.cap ∧
    b.wpos = (b.rpos + b.used) % b.cap

/-- Abstraction function: the FIFO queue a buffer currently holds, i.e. the
`used` samples starting at `rpos`, read through the `i mod cap` aliasing. -/
def Buffer.absQueue [Inhabited T] (b : Buffer T) : List T :=
  (List.range b.used).map fun k => b.data.getD ((b.rpos + k) % b.cap) default

/-- Rust `Float` (`f32`), modelled as exact rationals. -/
abbrev Float : Type := ℚ

/-- Embedding of `SinglePoleIIR<Tout>` (`src/single_pole_iir_filter.rs`),
instantiated at `Tout = Float`. -/
structure SinglePoleIIR where
  alpha : Float
  one_minus_alpha : Float
  prev_output : Float
deriving DecidableEq

/-- `SinglePoleIIR::set_taps`: rejects `alpha` outside `0.0..=1.0` with
`None`; otherwise stores `alpha` and `1.0 - alpha`. -/
def SinglePoleIIR.set_taps (s : SinglePoleIIR) (alpha : Float) : Option SinglePoleIIR :=
  if 0 ≤ alpha ∧ alpha ≤ 1 then
    some { s with alpha := alpha, one_minus_alpha := 1 - alpha }
  else
    none

/-- `SinglePoleIIR::new`: starts from `Float::default()` fields and a
`Tout::default()` (zero) previous output, then applies `set_taps`. -/
def SinglePoleIIR.new (alpha : Float) : Option SinglePoleIIR :=
  SinglePoleIIR.set_taps { alpha := 0, one_minus_alpha := 0, prev_output := 0 } alpha

/-- `SinglePoleIIR::filter`: `o = sample * alpha + prev_output *
one_minus_alpha`, storing `o` as the new previous output. -/
def SinglePoleIIR.filter (s : SinglePoleIIR) (sample : Float) : Float × SinglePoleIIR :=
  let o : Float := sample * s.alpha + s.prev_output * s.one_minus_alpha
  (o, { s with prev_output := o })

/-- `SinglePoleIIRFilter::new(src, alpha)`: succeeds iff the inner
`SinglePoleIIR::new(alpha)` does (the stream fields play no part in
construction success). -/
def SinglePoleIIRFilter.new (alpha : Float) : Option SinglePoleIIR :=
  SinglePoleIIR.new alpha

/-- Outputs of feeding a sample list through the filter, one
`process_one`/`filter` call per input sample. -/
def iirRun : SinglePoleIIR → List Float → List Float
  | _, [] => []
  | s, x :: xs =>
    let p := s.filter x
    p.1 :: iirRun p.2 xs

/-- The recurrence stated by the spec, written from its words: `y_n = x_n *
alpha + y_(n-1) * (1 - alpha)` with initial previous output `0`; used to
compare the code's filter against the spec's recurrence. -/
def specIIRRec (alpha : Float) : Float → List Float → List Float
  | _, [] => []
  | prev, x :: xs =>
    let y : Float := x * alpha + prev * (1 - alpha)
    y :: specIIRRec alpha y xs

/-- Modelled from the spec: `Stream<T>` lives in `src/stream.rs`, which is
not among the provided sources.  Spec section 4.2: a stream wraps one
`Buffer<T>`; modelled as the queue of readable samples `q` plus the sample
capacity `cap` of the backing buffer. -/
structure SpecStream (T : Type) where
  cap : Nat
  q : List T
deriving DecidableEq

/-- Modelled from the spec: `Stream::write(iter)` appends the samples of the
iterator into the writable slice, "produce as many as fit", and returns the
count written. -/
def SpecStream.write (s : SpecStream T) (xs : List T) : SpecStream T × Nat :=
  let w := xs.take (s.cap - s.q.length)
  ({ s with q := s.q ++ w }, w.length)

/-- Modelled from the spec: `Stream::iter()` borrows an iterator over the
readable slice. -/
def SpecStream.iterAll (s : SpecStream T) : List T := s.q

/-- Modelled from the spec: `Stream::clear()` consumes all readable
samples. -/
def SpecStream.clear (s : SpecStream T) : SpecStream T := { s with q := [] }

/-- `BlockRet` (`src/block.rs`): normal return or end of stream. -/
inductive BlockRet where
  | Ok
  | EOF
deriving DecidableEq

/-- The `work()` generated by `map_block_macro_v2` (`src/block.rs`): write
the `process_one`-mapped readable input into the output stream, then
`clear()` the input, then return `Ok(BlockRet::Ok)`.  Result: the updated
input stream, the updated output stream, and the returned value. -/
def mapWork (f : T → T) (i o : SpecStream T) :
    SpecStream T × SpecStream T × Except String BlockRet :=
  let o2 := (o.write (i.iterAll.map f)).1
  (i.clear, o2, .ok .Ok)

/-- The `work()` generated by `map_block_convert_macro` (`src/block.rs`):
identical to `mapWork` except that the output element type differs. -/
def mapConvertWork (f : T → U) (i : SpecStream T) (o : SpecStream U) :
    SpecStream T × SpecStream U × Except String BlockRet :=
  let o2 := (o.write (i.iterAll.map f)).1
  (i.clear, o2, .ok .Ok)

/-- `DebugSink::work` (`src/debug_sink.rs`): print every readable sample
(the printed sequence is returned as the middle component), `clear()` the
input, return `Ok(BlockRet::Ok)`. -/
def debugSinkWork (s : SpecStream T) : SpecStream T × List T × Except String BlockRet :=
  (s.clear, s.iterAll, .ok .Ok)

/-- Samples consumed from a stream by one `work()` call: readable before
minus readable after. -/
def consumedCount (before after : SpecStream T) : Nat :=
  before.q.length - after.q.length

/-- Samples written to a stream by one `work()` call: readable after minus
readable before. -/
def writtenCount (before after : SpecStream T) : Nat :=
  after.q.length - before.q.length

/-- JSON values, used to embed the serde_json serialization of the SigMF
metadata (`src/sigmf.rs`). -/
inductive Json where
  | str (s : String)
  | num (q : ℚ)
  | arr (xs : List Json)
  | obj (fields : List (String × Json))

/-- Keys of a JSON object (empty for non-objects). -/
def Json.objKeys : Json → List String
  | .obj fields => fields.map Prod.fst
  | _ => []

/-- An optional rational field with `skip_serializing_if = Option::is_none`. -/
def optNum (name : String) : Option ℚ → List (String × Json)
  | none => []
  | some v => [(name, .num v)]

/-- An optional integer field with `skip_serializing_if = Option::is_none`. -/
def optNatNum (name : String) : Option Nat → List (String × Json)
  | none => []
  | some v => [(name, .num v)]

/-- An optional string field with `skip_serializing_if = Option::is_none`. -/
def optStr (name : String) : Option String → List (String × Json)
  | none => []
  | some v => [(name, .str v)]

/-- A `Vec` field with `skip_serializing_if = Vec::is_empty`. -/
def vecField (name : String) (xs : List Json) : List (String × Json) :=
  if xs.isEmpty then [] else [(name, .arr xs)]

/-- `DATATYPE_CF32` (`src/sigmf.rs`). -/
def DATATYPE_CF32 : String := "cf32"

/-- `VERSION` (`src/sigmf.rs`). -/
def VERSION : String := "1.1.0"

/-- `Capture` (`src/sigmf.rs`): a capture segment; `u64` fields as `Nat`,
`f64` fields as `ℚ`. -/
structure Capture where
  core_sample_start : Nat
  core_global_index : Option Nat
  core_header_bytes : Option Nat
  core_frequency : Option ℚ
  core_datetime : Option String
deriving DecidableEq

/-- The annotation segment struct of `src/sigmf.rs` (named `Annot` here). -/
structure Annot where
  core_sample_start : Nat
  core_sample_count : Option Nat
  core_generator : Option String
  core_label : Option String
  core_comment : Option String
  core_freq_lower_edge : Option ℚ
  core_freq_upper_edge : Option ℚ
  core_uuid : Option String
deriving DecidableEq

/-- `Global` (`src/sigmf.rs`): the global object. -/
structure Global where
  core_datatype : String
  core_sample_rate : Option ℚ
  core_version : String
  core_num_channels : Option Nat
  core_sha512 : Option String
  core_description : Option String
  core_author : Option String
  core_recorder : Option String
  core_license : Option String
  core_hw : Option String
deriving DecidableEq

/-- `SigMF` (`src/sigmf.rs`): global object, capture segments, annotation
segments. -/
structure SigMF where
  global : Global
  captures : List Capture
  annotations : List Annot
deriving DecidableEq

/-- `Global::default()`: empty strings and `None` everywhere. -/
def globalDefault : Global :=
  { core_datatype := "", core_sample_rate := none, core_version := "",
    core_num_channels := none, core_sha512 := none, core_description := none,
    core_author := none, core_recorder := none, core_license := none,
    core_hw := none }

/-- `Capture::default()`: zero start, `None` everywhere else. -/
def captureDefault : Capture :=
  { core_sample_start := 0, core_global_index := none, core_header_bytes := none,
    core_frequency := none, core_datetime := none }

/-- serde serialization of `Global`: fields in declaration order, renamed
per the `serde(rename)` attributes, optional fields skipped when `None`. -/
def serializeGlobal (g : Global) : Json :=
  .obj ([("core:datatype", .str g.core_datatype)]
    ++ optNum "core:sample_rate" g.core_sample_rate
    ++ [("core:version", .str g.core_version)]
    ++ optNatNum "core:num_channels" g.core_num_channels
    ++ optStr "core:sha512" g.core_sha512
    ++ optStr "core:description" g.core_description
    ++ optStr "core:author" g.core_author
    ++ optStr "core:recorder" g.core_recorder
    ++ optStr "core:license" g.core_license
    ++ optStr "core:hw" g.core_hw)

/-- serde serialization of `Capture`. -/
def serializeCapture (c : Capture) : Json :=
  .obj ([("core:sample_start", .num c.core_sample_start)]
    ++ optNatNum "core:global_index" c.core_global_index
    ++ optNatNum "core:header_bytes" c.core_header_bytes
    ++ optNum "core:frequency" c.core_frequency
    ++ optStr "core:datetime" c.core_datetime)

/-- serde serialization of the annotation segment struct. -/
def serializeAnnot (a : Annot) : Json :=
  .obj ([("core:sample_start", .num a.core_sample_start)]
    ++ optNatNum "core:sample_count" a.core_sample_count
    ++ optStr "core:generator" a.core_generator
    ++ optStr "core:label" a.core_label
    ++ optStr "core:comment" a.core_comment
    ++ optNum "core:freq_lower_edge" a.core_freq_lower_edge
    ++ optNum "core:freq_upper_edge" a.core_freq_upper_edge
    ++ optStr "core:uuid" a.core_uuid)

/-- serde serialization of `SigMF`: `captures` and `annotations` are skipped
when empty (`skip_serializing_if = Vec::is_empty`). -/
def serializeSigMF (m : SigMF) : Json :=
  .obj ([("global", serializeGlobal m.global)]
    ++ vecField "captures" (m.captures.map serializeCapture)
    ++ vecField "annotations" (m.annotations.map serializeAnnot))

/-- The `SigMF` value built by `sigmf::write(fname, samp_rate, freq)`:
version and datatype constants, the given sample rate, one capture segment
starting at sample 0 with the given frequency, no annotations. -/
def sigmfWriteData (samp_rate freq : ℚ) : SigMF :=
  { global := { globalDefault with
      core_version := VERSION,
      core_datatype := DATATYPE_CF32,
      core_sample_rate := some samp_rate },
    captures := [{ captureDefault with
      core_sample_start := 0,
      core_frequency := some freq }],
    annotations := [] }

/-! ### Helper lemmas -/

theorem getD_set_ne {α : Type} [Inhabited α] (l : List α) (m q : Nat) (x : α)
    (h : m ≠ q) : (l.set m x).getD q default = l.getD q default := by
  by_cases hlt : q < l.length
  · rw [List.getD_eq_getElem _ _ (by simpa using hlt), List.getD_eq_getElem _ _ hlt]
    exact List.getElem_set_ne h _
  · rw [List.getD_eq_default _ _ (by simpa using Nat.le_of_not_lt hlt),
      List.getD_eq_default _ _ (Nat.le_of_not_lt hlt)]

theorem getD_set_self {α : Type} [Inhabited α] (l : List α) (m : Nat) (x : α)
    (h : m < l.length) : (l.set m x).getD m default = x := by
  rw [List.getD_eq_getElem _ _ (by simpa using h)]
  exact List.getElem_set_self (by simpa using h)

theorem add_mod_inj {w a b c : Nat} (ha : a < c) (hb : b < c)
    (h : (w + a) % c = (w + b) % c) : a = b := by
  have h2 := Nat.ModEq.add_left_cancel' w h
  rwa [Nat.ModEq, Nat.mod_eq_of_lt ha, Nat.mod_eq_of_lt hb] at h2

theorem Buffer.writeSeq_fields (xs : List T) : ∀ (b : Buffer T) (j : Nat),
    (b.writeSeq j xs).rpos = b.rpos ∧ (b.writeSeq j xs).wpos = b.wpos ∧
    (b.writeSeq j xs).used = b.used ∧ (b.writeSeq j xs).cap = b.cap ∧
    (b.writeSeq j xs).data.length = b.data.length := by
  induction xs with
  | nil => intro b j; simp [Buffer.writeSeq]
  | cons x xs ih =>
    intro b j
    simpa [Buffer.writeSeq, Buffer.setWrite] using ih (b.setWrite j x) (j + 1)

theorem Buffer.consume_eq_some {b b' : Buffer T} {n : Nat} :
    b.consume n = some b' ↔
      n ≤ b.used ∧ b' = { b with rpos := (b.rpos + n) % b.cap, used := b.used - n } := by
  unfold Buffer.consume
  split <;> simp_all [eq_comm]

theorem Buffer.produce_eq_some {b b' : Buffer T} {n : Nat} :
    b.produce n = some b' ↔
      n ≤ b.free ∧ n ≤ b.writeCapacity ∧
        b' = { b with wpos := (b.wpos + n) % b.cap, used := b.used + n } := by
  unfold Buffer.produce
  split <;> simp_all [eq_comm, and_assoc]

theorem mkBuffer_inv (T : Type) [Inhabited T] (cap : Nat) (h : 0 < cap) :
    (mkBuffer T cap).inv := by
  simp [Buffer.inv, mkBuffer, h]

theorem Buffer.free_writeCapacity (b : Buffer T) : b.writeCapacity = b.free := by
  simp [Buffer.writeCapacity, Buffer.writeRange]

theorem Buffer.consume_inv {b b' : Buffer T} {n : Nat} (hb : b.inv)
    (h : b.consume n = some b') : b'.inv := by
  obtain ⟨h1, h2, h3, h4⟩ := hb
  obtain ⟨hn, rfl⟩ := Buffer.consume_eq_some.1 h
  have hcpos : 0 < b.cap := by omega
  refine ⟨by simp; omega, by simpa using h2, by simpa using Nat.mod_lt _ hcpos, ?_⟩
  simp only
  rw [Nat.mod_add_mod, h4]
  congr 1
  omega

theorem Buffer.produce_inv {b b' : Buffer T} {n : Nat} (hb : b.inv)
    (h : b.produce n = some b') : b'.inv := by
  obtain ⟨h1, h2, h3, h4⟩ := hb
  obtain ⟨hn, -, rfl⟩ := Buffer.produce_eq_some.1 h
  have hfree : b.free = b.cap - b.used := rfl
  refine ⟨by simp [Buffer.free, Buffer.capacity] at hn; simp; omega, by simpa using h2,
    by simpa using h3, ?_⟩
  simp only
  rw [h4, Nat.mod_add_mod]
  congr 1
  omega

theorem stepOp_inv {op : BufOp T} {b b' : Buffer T} (hb : b.inv)
    (h : stepOp op b = some b') : b'.inv := by
  cases op with
  | consume n => exact Buffer.consume_inv hb h
  | produce xs =>
    simp only [stepOp] at h
    split at h
    · have hw := Buffer.writeSeq_fields xs b 0
      have hbw : (b.writeSeq 0 xs).inv := by
        obtain ⟨h1, h2, h3, h4⟩ := hb
        exact ⟨hw.2.2.1 ▸ hw.2.2.2.1 ▸ h1, by rw [hw.2.2.2.2, hw.2.2.2.1]; exact h2,
          hw.1 ▸ hw.2.2.2.1 ▸ h3, by rw [hw.1, hw.2.1, hw.2.2.1, hw.2.2.2.1]; exact h4⟩
      exact Buffer.produce_inv hbw h
    · exact absurd h (by simp)

theorem execOps_inv : ∀ (ops : List (BufOp T)) (b b' : Buffer T),
    b.inv → execOps ops b = some b' → b'.inv := by
  intro ops
  induction ops with
  | nil => intro b b' hb h; simp [execOps] at h; exact h ▸ hb
  | cons op ops ih =>
    intro b b' hb h
    simp only [execOps] at h
    obtain ⟨b1, h1, h2⟩ := Option.bind_eq_some.1 h
    exact ih b1 b' (stepOp_inv hb h1) h2

theorem stepOp_cap {op : BufOp T} {b b' : Buffer T} (h : stepOp op b = some b') :
    b'.cap = b.cap := by
  cases op with
  | consume n => obtain ⟨-, rfl⟩ := Buffer.consume_eq_some.1 h; rfl
  | produce xs =>
    simp only [stepOp] at h
    split at h
    · obtain ⟨-, -, rfl⟩ := Buffer.produce_eq_some.1 h
      simpa using (Buffer.writeSeq_fields xs b 0).2.2.2.1
    · exact absurd h (by simp)

theorem execOps_cap : ∀ (ops : List (BufOp T)) (b b' : Buffer T),
    execOps ops b = some b' → b'.cap = b.cap := by
  intro ops
  induction ops with
  | nil => intro b b' h; simp [execOps] at h; rw [← h]
  | cons op ops ih =>
    intro b b' h
    simp only [execOps] at h
    obtain ⟨b1, h1, h2⟩ := Option.bind_eq_some.1 h
    rw [ih b1 b' h2, stepOp_cap h1]

theorem Buffer.absQueue_length [Inhabited T] (b : Buffer T) :
    b.absQueue.length = b.used := by
  simp [Buffer.absQueue]

theorem Buffer.readBuf_length (b : Buffer T) (hb : b.inv) :
    b.readBuf.length = b.used := by
  obtain ⟨h1, h2, h3, h4⟩ := hb
  simp only [Buffer.readBuf, Buffer.readRange, Buffer.fullBuffer, List.length_take,
    List.length_drop, List.length_append]
  omega

theorem Buffer.wpos_lt (b : Buffer T) (hb : b.inv) : b.wpos < b.cap := by
  obtain ⟨h1, h2, h3, h4⟩ := hb
  rw [h4]
  exact Nat.mod_lt _ (by omega)

theorem Buffer.writeBuf_length (b : Buffer T) (hb : b.inv) :
    b.writeBuf.length = b.free := by
  have hw := b.wpos_lt hb
  obtain ⟨h1, h2, h3, h4⟩ := hb
  simp only [Buffer.writeBuf, Buffer.writeRange, Buffer.fullBuffer, Buffer.free,
    Buffer.capacity, List.length_take, List.length_drop, List.length_append]
  omega

theorem Buffer.readBuf_eq_absQueue [Inhabited T] (b : Buffer T) (hb : b.inv) :
    b.readBuf = b.absQueue := by
  have hlen := b.readBuf_length hb
  obtain ⟨h1, h2, h3, h4⟩ := hb
  have hcpos : 0 < b.cap := by omega
  apply List.ext_getElem
  · rw [hlen, Buffer.absQueue_length]
  · intro k hk1 hk2
    have hku : k < b.used := by rwa [hlen] at hk1
    have hmod : (b.rpos + k) % b.cap < b.cap := Nat.mod_lt _ hcpos
    simp only [Buffer.absQueue]
    rw [List.getElem_map, List.getElem_range,
      List.getD_eq_getElem _ _ (by omega : (b.rpos + k) % b.cap < b.data.length)]
    simp only [Buffer.readBuf, Buffer.readRange, Buffer.fullBuffer]
    rw [List.getElem_take, List.getElem_drop]
    by_cases hlt : b.rpos + k < b.cap
    · rw [List.getElem_append_left (by omega : b.rpos + k < b.data.length)]
      congr 1
      exact (Nat.mod_eq_of_lt hlt).symm
    · rw [List.getElem_append_right (by omega : b.data.length ≤ b.rpos + k)]
      congr 1
      rw [Nat.mod_eq_sub_mod (by omega), Nat.mod_eq_of_lt (by omega)]
      omega

theorem Buffer.writeSeq_getD_untouched [Inhabited T] (xs : List T) :
    ∀ (b : Buffer T) (j q : Nat),
    (∀ i, i < xs.length → q ≠ (b.wpos + j + i) % b.cap) →
    (b.writeSeq j xs).data.getD q default = b.data.getD q default := by
  induction xs with
  | nil => intro b j q _; simp [Buffer.writeSeq]
  | cons x xs ih =>
    intro b j q h
    have hq0 : q ≠ (b.wpos + j) % b.cap := by
      simpa using h 0 (by simp)
    have htail : ∀ i, i < xs.length →
        q ≠ ((b.setWrite j x).wpos + (j + 1) + i) % (b.setWrite j x).cap := by
      intro i hi
      have harith : b.wpos + (j + 1) + i = b.wpos + j + (i + 1) := by omega
      simpa [Buffer.setWrite, harith] using h (i + 1) (by simpa using Nat.succ_lt_succ hi)
    simp only [Buffer.writeSeq]
    rw [ih (b.setWrite j x) (j + 1) q htail]
    simp only [Buffer.setWrite]
    exact getD_set_ne _ _ _ _ (fun he => hq0 he.symm)

theorem Buffer.writeSeq_getD_written [Inhabited T] (xs : List T) :
    ∀ (b : Buffer T) (j i : Nat), i < xs.length → j + xs.length ≤ b.cap →
    b.data.length = b.cap →
    (b.writeSeq j xs).data.getD ((b.wpos + j + i) % b.cap) default = xs.getD i default := by
  induction xs with
  | nil => intro b j i hi _ _; simp at hi
  | cons x xs ih =>
    intro b j i hi hcap hlen
    have hcpos : 0 < b.cap := by omega
    simp only [Buffer.writeSeq]
    cases i with
    | zero =>
      have hunt : ∀ i2, i2 < xs.length →
          (b.wpos + j + 0) % b.cap ≠
            ((b.setWrite j x).wpos + (j + 1) + i2) % (b.setWrite j x).cap := by
        intro i2 hi2
        simp only [Buffer.setWrite, Nat.add_zero]
        intro he
        simp only [List.length_cons] at hcap
        have he2 : (b.wpos + j) % b.cap = (b.wpos + (j + 1 + i2)) % b.cap := by
          rw [he]
          congr 1
          omega
        have hj : j = j + 1 + i2 :=
          add_mod_inj (by omega) (by omega) he2
        omega
      rw [Buffer.writeSeq_getD_untouched xs (b.setWrite j x) (j + 1) _ hunt]
      simp only [Buffer.setWrite, Nat.add_zero, List.getD_cons_zero]
      exact getD_set_self _ _ _ (by rw [hlen]; exact Nat.mod_lt _ hcpos)
    | succ i2 =>
      have harith : b.wpos + j + (i2 + 1) = b.wpos + (j + 1) + i2 := by omega
      rw [harith]
      have hrec := ih (b.setWrite j x) (j + 1) i2 (by simpa using hi)
        (by simp [Buffer.setWrite]; simp at hcap; omega)
        (by simp [Buffer.setWrite, hlen])
      simpa [Buffer.setWrite] using hrec

theorem Buffer.consume_absQueue [Inhabited T] {b b' : Buffer T} {n : Nat} (hb : b.inv)
    (h : b.consume n = some b') : b'.absQueue = b.absQueue.drop n := by
  obtain ⟨hn, rfl⟩ := Buffer.consume_eq_some.1 h
  obtain ⟨h1, h2, h3, h4⟩ := hb
  apply List.ext_getElem
  · simp [Buffer.absQueue_length]
  · intro k hk1 hk2
    simp only [Buffer.absQueue]
    rw [List.getElem_drop, List.getElem_map, List.getElem_map, List.getElem_range,
      List.getElem_range]
    congr 1
    rw [Nat.mod_add_mod]
    congr 1
    omega

theorem stepOp_produce_absQueue [Inhabited T] {b b' : Buffer T} {xs : List T} (hb : b.inv)
    (h : stepOp (BufOp.produce xs) b = some b') :
    b'.absQueue = b.absQueue ++ xs ∧ b'.used = b.used + xs.length := by
  simp only [stepOp] at h
  split at h
  case isTrue hfit =>
    obtain ⟨hn1, hn2, rfl⟩ := Buffer.produce_eq_some.1 h
    obtain ⟨hwr, hww, hwu, hwc, hwl⟩ := Buffer.writeSeq_fields xs b 0
    obtain ⟨h1, h2, h3, h4⟩ := hb
    have hfree : xs.length ≤ b.cap - b.used := hfit
    have hcpos : 0 < b.cap := by omega
    refine ⟨?_, by simp [hwu]⟩
    apply List.ext_getElem
    · simp [Buffer.absQueue_length, hwu]
    · intro k hk1 hk2
      have hkul : k < b.used + xs.length := by
        simpa [Buffer.absQueue_length] using hk2
      simp only [Buffer.absQueue]
      rw [List.getElem_map, List.getElem_range]
      simp only [hwr, hwc, hwl]
      by_cases hku : k < b.used
      · rw [List.getElem_append_left (by simpa using hku)]
        rw [List.getElem_map, List.getElem_range]
        apply Buffer.writeSeq_getD_untouched
        intro i hi he
        have he2 : (b.rpos + k) % b.cap = (b.rpos + (b.used + i)) % b.cap := by
          rw [he, Nat.add_zero, h4, Nat.mod_add_mod]
          congr 1
          omega
        have hk' : k = b.used + i := add_mod_inj (by omega) (by omega) he2
        omega
      · have hki : k - b.used < xs.length := by omega
        rw [List.getElem_append_right (by simp; omega)]
        have hidx : (b.rpos + k) % b.cap = (b.wpos + 0 + (k - b.used)) % b.cap := by
          rw [Nat.add_zero, h4, Nat.mod_add_mod]
          congr 1
          omega
        rw [hidx, Buffer.writeSeq_getD_written xs b 0 (k - b.used) hki (by omega) h2,
          List.getD_eq_getElem _ _ hki]
        congr 1
        simp
  case isFalse => exact absurd h (by simp)

theorem execOps_absQueue [Inhabited T] : ∀ (ops : List (BufOp T)) (b b' : Buffer T),
    b.inv → execOps ops b = some b' →
    ∀ (pre post : List T), b.absQueue = pre ++ post →
    BufOp.totalConsumed ops ≤ pre.length →
    b'.absQueue = pre.drop (BufOp.totalConsumed ops) ++ post ++ BufOp.appended ops := by
  intro ops
  induction ops with
  | nil =>
    intro b b' hb h pre post hq hc
    simp only [execOps, Option.some_inj] at h
    subst h
    simp [BufOp.totalConsumed, BufOp.appended, hq]
  | cons op ops ih =>
    intro b b' hb h pre post hq hc
    simp only [execOps] at h
    obtain ⟨b1, h1, h2⟩ := Option.bind_eq_some.1 h
    have hinv1 := stepOp_inv hb h1
    cases op with
    | consume n =>
      simp only [BufOp.totalConsumed] at hc ⊢
      simp only [stepOp] at h1
      have hq1 : b1.absQueue = pre.drop n ++ post := by
        rw [Buffer.consume_absQueue hb h1, hq, List.drop_append_of_le_length (by omega)]
      have hrec := ih b1 b' hinv1 h2 (pre.drop n) post hq1
        (by rw [List.length_drop]; omega)
      rw [hrec, List.drop_drop]
      simp [BufOp.appended]
    | produce xs =>
      obtain ⟨hq1, hu1⟩ := stepOp_produce_absQueue hb h1
      simp only [BufOp.totalConsumed, BufOp.appended] at hc ⊢
      have hq1' : b1.absQueue = pre ++ (post ++ xs) := by
        rw [hq1, hq, List.append_assoc]
      have hrec := ih b1 b' hinv1 h2 pre (post ++ xs) hq1' hc
      rw [hrec]
      simp [List.append_assoc]

/-! ### Claim theorems -/

/-- C1: for every sequence of precondition-respecting `produce`/`consume`
calls starting from a freshly constructed buffer of sample capacity `cap`,
the quantities `used` and `free` remain in `[0, cap]` and
`used + free = cap` holds after every call (every reachable state). -/
theorem buffer_counters_invariant {T : Type} [Inhabited T] (cap : Nat)
    (ops : List (BufOp T)) (b : Buffer T) (hcap : 0 < cap)
    (h : execOps ops (mkBuffer T cap) = some b) :
    b.used ≤ cap ∧ b.free ≤ cap ∧ b.used + b.free = cap := by
  have hinv := execOps_inv ops _ b (mkBuffer_inv T cap hcap) h
  have hc : b.cap = cap := execOps_cap ops _ b h
  obtain ⟨h1, h2, h3, h4⟩ := hinv
  have hfree : b.free = b.cap - b.used := rfl
  omega

theorem buffer_counters_invariant_witness :
    (⟨2, 1, 0, 1, [5, 7]⟩ : Buffer Nat).used ≤ 2 ∧
    (⟨2, 1, 0, 1, [5, 7]⟩ : Buffer Nat).free ≤ 2 ∧
    (⟨2, 1, 0, 1, [5, 7]⟩ : Buffer Nat).used + (⟨2, 1, 0, 1, [5, 7]⟩ : Buffer Nat).free = 2 :=
  buffer_counters_invariant 2 [BufOp.produce [5, 7], BufOp.consume 1]
    ⟨2, 1, 0, 1, [5, 7]⟩ (by decide) (by decide)

/-- C2: FIFO data correctness through the double mapping.  From any
reachable state `b`, produce `xs` (written into the write slice, committed
with `produce`), run any further precondition-respecting operations that
consume at most the `b.used` older samples, and the `xs.length` samples then
observed through the read slice at the position following the remaining
older samples are exactly `xs`, in order — wrap included, by virtue of the
`i mod cap` aliasing of the doubled mapping. -/
theorem buffer_fifo {T : Type} [Inhabited T] (cap : Nat) (ops0 : List (BufOp T))
    (xs : List T) (ops : List (BufOp T)) (b b1 b2 : Buffer T)
    (hcap : 0 < cap)
    (h0 : execOps ops0 (mkBuffer T cap) = some b)
    (h1 : stepOp (BufOp.produce xs) b = some b1)
    (h2 : execOps ops b1 = some b2)
    (hc : BufOp.totalConsumed ops ≤ b.used) :
    (b2.readBuf.drop (b.used - BufOp.totalConsumed ops)).take xs.length = xs := by
  have hinvb := execOps_inv ops0 _ b (mkBuffer_inv T cap hcap) h0
  have hinv1 := stepOp_inv hinvb h1
  have hinv2 := execOps_inv ops b1 b2 hinv1 h2
  obtain ⟨hq1, -⟩ := stepOp_produce_absQueue hinvb h1
  have habs := execOps_absQueue ops b1 b2 hinv1 h2 b.absQueue xs hq1
    (by rw [Buffer.absQueue_length]; exact hc)
  rw [Buffer.readBuf_eq_absQueue b2 hinv2, habs, List.append_assoc]
  have hdl : (b.absQueue.drop (BufOp.totalConsumed ops)).length
      = b.used - BufOp.totalConsumed ops := by
    simp [Buffer.absQueue_length]
  rw [← hdl, List.drop_left, List.take_left]

theorem buffer_fifo_witness :
    ((Buffer.readBuf (⟨2, 0, 1, 1, [9, 4]⟩ : Buffer Nat)).drop 0).take 1 = [9] :=
  buffer_fifo 2 [BufOp.produce [3, 4], BufOp.consume 1] [9] [BufOp.consume 1]
    ⟨2, 1, 0, 1, [3, 4]⟩ ⟨2, 1, 1, 2, [9, 4]⟩ ⟨2, 0, 1, 1, [9, 4]⟩
    (by decide) (by decide) (by decide) (by decide) (by decide)

/-- C3: in every reachable state the read slice is exactly `used` samples
long and the write slice exactly `free = capacity - used` samples long
(each a single contiguous slice of the doubled view); in particular a full
buffer has read slice `capacity` / write slice `0` and an empty buffer the
reverse. -/
theorem read_write_slice_lengths {T : Type} [Inhabited T] (cap : Nat)
    (ops : List (BufOp T)) (b : Buffer T) (hcap : 0 < cap)
    (h : execOps ops (mkBuffer T cap) = some b) :
    b.readBuf.length = b.used ∧ b.writeBuf.length = b.free := by
  have hinv := execOps_inv ops _ b (mkBuffer_inv T cap hcap) h
  exact ⟨b.readBuf_length hinv, b.writeBuf_length hinv⟩

theorem read_write_slice_lengths_witness :
    (Buffer.readBuf (⟨2, 0, 0, 2, [5, 7]⟩ : Buffer Nat)).length = 2 ∧
    (Buffer.writeBuf (⟨2, 0, 0, 2, [5, 7]⟩ : Buffer Nat)).length = 0 :=
  read_write_slice_lengths 2 [BufOp.produce [5, 7]] ⟨2, 0, 0, 2, [5, 7]⟩
    (by decide) (by decide)

/-- C4: under their preconditions the operations on a live buffer never
fail: with `n ≤ used`, `consume n` completes (no assertion fires) and
advances `rpos` to `(rpos + n) % capacity` while decrementing `used`; with
`m ≤ free`, `produce m` completes and advances `wpos` to
`(wpos + m) % capacity` while incrementing `used`. -/
theorem consume_produce_success {T : Type} (b : Buffer T) (n m : Nat)
    (hn : n ≤ b.used) (hm : m ≤ b.free) :
    b.consume n = some { b with rpos := (b.rpos + n) % b.cap, used := b.used - n } ∧
    b.produce m = some { b with wpos := (b.wpos + m) % b.cap, used := b.used + m } := by
  refine ⟨Buffer.consume_eq_some.2 ⟨hn, rfl⟩, Buffer.produce_eq_some.2 ⟨hm, ?_, rfl⟩⟩
  rwa [Buffer.free_writeCapacity]

theorem consume_produce_success_witness :
    Buffer.consume 1 (⟨2, 0, 1, 1, [5, 7]⟩ : Buffer Nat) = some ⟨2, 1, 1, 0, [5, 7]⟩ ∧
    Buffer.produce 1 (⟨2, 0, 1, 1, [5, 7]⟩ : Buffer Nat) = some ⟨2, 0, 0, 2, [5, 7]⟩ := by
  exact consume_produce_success ⟨2, 0, 1, 1, [5, 7]⟩ 1 1 (by decide) (by decide)

/-- C6 counterexample: 8192 is a positive page-aligned multiple, yet
`Buffer::<u8>::new(8192)` does not succeed — the `assert_eq!(size, 4096)`
fires (modelled as `none`), contradicting the claim that construction
succeeds for every positive page multiple. -/
theorem bufferNew_page_multiple_cex :
    8192 % 4096 = 0 ∧ 0 < 8192 ∧ bufferNew Nat 1 8192 = none := by
  decide

/-- C6 amended: construction succeeds exactly for `size = 4096`
(`assert_eq!(size, 4096)`); on success the capacity is
`4096 / size_of::<T>()` samples. -/
theorem bufferNew_only_4096 (T : Type) [Inhabited T] (elemSize size : Nat) :
    ((bufferNew T elemSize size).isSome ↔ size = 4096) ∧
    bufferNew T elemSize 4096 = some (mkBuffer T (4096 / elemSize)) := by
  constructor
  · unfold bufferNew
    split <;> simp_all
  · simp [bufferNew]

/-- C7: `SinglePoleIIRFilter::new` succeeds exactly for `alpha` in the
closed interval `[0, 1]` (endpoints included), and returns the defined
construction failure `None` outside it, e.g. at `-0.1` and `1.1`. -/
theorem iir_alpha_validation :
    (∀ alpha : Float, (SinglePoleIIRFilter.new alpha).isSome ↔ 0 ≤ alpha ∧ alpha ≤ 1) ∧
    (SinglePoleIIRFilter.new 0).isSome ∧ (SinglePoleIIRFilter.new 1).isSome ∧
    SinglePoleIIRFilter.new (-1/10) = none ∧ SinglePoleIIRFilter.new (11/10) = none := by
  refine ⟨?_,
    by norm_num [SinglePoleIIRFilter.new, SinglePoleIIR.new, SinglePoleIIR.set_taps],
    by norm_num [SinglePoleIIRFilter.new, SinglePoleIIR.new, SinglePoleIIR.set_taps],
    by norm_num [SinglePoleIIRFilter.new, SinglePoleIIR.new, SinglePoleIIR.set_taps],
    by norm_num [SinglePoleIIRFilter.new, SinglePoleIIR.new, SinglePoleIIR.set_taps]⟩
  intro a
  unfold SinglePoleIIRFilter.new SinglePoleIIR.new SinglePoleIIR.set_taps
  split <;> simp_all

theorem iirRun_eq_specIIRRec (a : Float) : ∀ (xs : List Float) (prev : Float),
    iirRun { alpha := a, one_minus_alpha := 1 - a, prev_output := prev } xs
      = specIIRRec a prev xs := by
  intro xs
  induction xs with
  | nil => intro prev; rfl
  | cons x xs ih =>
    intro prev
    simp only [iirRun, SinglePoleIIR.filter, specIIRRec]
    exact congrArg _ (ih _)

/-- C8: the filter computes the recurrence `y_n = x_n * alpha +
y_(n-1) * (1 - alpha)` with initial previous output `0` (the spec's
recurrence, `specIIRRec`); in particular with `alpha = 0.2` the input
`[0.1, 0.2]` yields exactly two outputs, within `1e-6` of `0.02` and
`0.056`. -/
theorem iir_recurrence_and_values :
    (∀ (a : Float) (s : SinglePoleIIR) (xs : List Float),
        SinglePoleIIR.new a = some s → iirRun s xs = specIIRRec a 0 xs) ∧
    (∃ y0 y1 : Float, ∃ s0, SinglePoleIIR.new (2/10) = some s0 ∧
        iirRun s0 [1/10, 2/10] = [y0, y1] ∧
        |y0 - 2/100| ≤ 1/1000000 ∧ |y1 - 56/1000| ≤ 1/1000000) := by
  constructor
  · intro a s xs h
    unfold SinglePoleIIR.new SinglePoleIIR.set_taps at h
    split at h
    · obtain rfl := Option.some_inj.1 h
      exact iirRun_eq_specIIRRec a xs 0
    · exact absurd h (by simp)
  · refine ⟨2/100, 56/1000, ⟨2/10, 1 - 2/10, 0⟩,
      by norm_num [SinglePoleIIR.new, SinglePoleIIR.set_taps],
      by norm_num [iirRun, SinglePoleIIR.filter], by norm_num, by norm_num⟩

theorem iir_recurrence_and_values_witness :
    iirRun { alpha := 2/10, one_minus_alpha := 1 - 2/10, prev_output := 0 } [1/10, 2/10]
      = specIIRRec (2/10) 0 [1/10, 2/10] :=
  iir_recurrence_and_values.1 (2/10) ⟨2/10, 1 - 2/10, 0⟩ [1/10, 2/10]
    (by norm_num [SinglePoleIIR.new, SinglePoleIIR.set_taps])

/-- C5 counterexample: with input stream holding `[1, 2]` and output stream
with only one free sample slot, the generated `work()` writes just one
mapped sample (`f 2` is never written) yet `clear()` consumes both input
samples: the number consumed (2) differs from the number written (1),
contradicting the claim. -/
theorem mapWork_consume_mismatch_cex :
    (mapWork (fun x => x) ({ cap := 2, q := [1, 2] } : SpecStream Nat)
        { cap := 2, q := [9] }).2.1.q = [9, 1] ∧
    (mapWork (fun x => x) ({ cap := 2, q := [1, 2] } : SpecStream Nat)
        { cap := 2, q := [9] }).1.q = [] ∧
    consumedCount { cap := 2, q := [1, 2] }
      (mapWork (fun x => x) ({ cap := 2, q := [1, 2] } : SpecStream Nat)
        { cap := 2, q := [9] }).1 = 2 ∧
    writtenCount { cap := 2, q := [9] }
      (mapWork (fun x => x) ({ cap := 2, q := [1, 2] } : SpecStream Nat)
        { cap := 2, q := [9] }).2.1 = 1 ∧
    (2 : Nat) ≠ 1 := by
  decide

/-- C5 amended: the generated `work()` appends `process_one(x)` for each
sample `x` of the longest readable prefix that fits in the output's free
space, in input order, drains (consumes) the entire readable input
regardless of how many samples were written, and returns `Ok`. -/
theorem mapWork_characterization {T : Type} (f : T → T) (i o : SpecStream T) :
    mapWork f i o =
      ({ cap := i.cap, q := [] },
       { cap := o.cap, q := o.q ++ (i.q.map f).take (o.cap - o.q.length) },
       Except.ok BlockRet.Ok) :=
  rfl

/-- C10: a `work()` generated by the map helpers, and `DebugSink::work()`,
returns `Ok(BlockRet::Ok)` on every input/output stream state: never `EOF`,
never an error. -/
theorem work_never_eof_nor_error {T U : Type} (f : T → T) (g : T → U)
    (i o i2 : SpecStream T) (o2 : SpecStream U) (s : SpecStream T) :
    (mapWork f i o).2.2 = Except.ok BlockRet.Ok ∧
    (mapConvertWork g i2 o2).2.2 = Except.ok BlockRet.Ok ∧
    (debugSinkWork s).2.2 = Except.ok BlockRet.Ok :=
  ⟨rfl, rfl, rfl⟩

/-- C9: for every sample rate `s` and frequency `f`, the serialized SigMF
document written by `sigmf::write` has a global object with datatype
`"cf32"`, version `"1.1.0"` and sample rate `s`, exactly one capture
segment with `sample_start = 0` and frequency `f`, and no `annotations`
key (the empty annotations array is omitted). -/
theorem sigmf_write_metadata (s f : ℚ) :
    serializeSigMF (sigmfWriteData s f) =
      Json.obj [("global", Json.obj [("core:datatype", Json.str "cf32"),
                  ("core:sample_rate", Json.num s),
                  ("core:version", Json.str "1.1.0")]),
                ("captures", Json.arr [Json.obj [("core:sample_start", Json.num 0),
                  ("core:frequency", Json.num f)]])] ∧
    "annotations" ∉ (serializeSigMF (sigmfWriteData s f)).objKeys := by
  constructor
  · rfl
  · intro hmem
    simp [serializeSigMF, serializeGlobal, serializeCapture, sigmfWriteData,
      globalDefault, captureDefault, vecField, optNum, optNatNum, optStr,
      Json.objKeys, DATATYPE_CF32, VERSION] at hmem

end RustRadio
